import Mathlib

/-!
Shallow embedding of the `libmycitadel` wallet-engine interface
(`src/libmycitadel/libmycitadel.h`).

The repository ships only the C interface header; every constant and type
below is transcribed from that header.  The behaviour of the functions the
header declares is not part of `src/`, so each operation is modelled from
the specification (see the `Modelled from the spec:` doc comments), staying
as close as possible to the standard algorithms the spec names (bech32 /
bech32m checksums, BIP-39 mnemonics, BIP-32 hierarchical derivation,
PSBT signing, the invoice state machine).

Strings crossing the C boundary are modelled as lists of byte values
(`List Nat`, each element intended `< 256`); caller-owned secret buffers
are passed in and returned explicitly so that the wiping contract is
observable.
-/

/-! ## Constants transcribed from libmycitadel.h -/

def BECH32_OK : Nat := 0

def BECH32_ERR_HRP : Nat := 1

def BECH32_ERR_CHECKSUM : Nat := 2

def BECH32_ERR_ENCODING : Nat := 3

def BECH32_ERR_PAYLOAD : Nat := 4

def BECH32_ERR_UNSUPPORTED : Nat := 5

def BECH32_ERR_INTERNAL : Nat := 6

def BECH32_ERR_NULL : Nat := 7

def BECH32_UNKNOWN : Nat := 0

def BECH32_URL : Nat := 1

def BECH32_BC_ADDRESS : Nat := 256

def BECH32_LN_BOLT11 : Nat := 257

def BECH32_LNPBP_ID : Nat := 512

def BECH32_LNPBP_DATA : Nat := 513

def BECH32_LNPBP_ZDATA : Nat := 514

def BECH32_LNPBP_INVOICE : Nat := 528

def BECH32_RGB_SCHEMA_ID : Nat := 768

def BECH32_RGB_CONTRACT_ID : Nat := 769

def BECH32_RGB_SCHEMA : Nat := 784

def BECH32_RGB_GENESIS : Nat := 785

def BECH32_RGB_CONSIGNMENT : Nat := 800

def BECH32_RGB20_ASSET : Nat := 800

def SUCCESS : Nat := 0

def ERRNO_IO : Nat := 1

def ERRNO_RPC : Nat := 2

def ERRNO_NET : Nat := 3

def ERRNO_TRANSPORT : Nat := 4

def ERRNO_NOTSUPPORTED : Nat := 5

def ERRNO_STORAGE : Nat := 6

def ERRNO_SERVERFAIL : Nat := 7

def ERRNO_EMBEDDEDFAIL : Nat := 8

def ERRNO_UNINIT : Nat := 100

def ERRNO_CHAIN : Nat := 101

def ERRNO_JSON : Nat := 102

def ERRNO_BECH32 : Nat := 103

def ERRNO_PARSE : Nat := 104

def ERRNO_NULL : Nat := 105

/-- The `error_t` enum of libmycitadel.h (sequential `uint16_t` values). -/
inductive error_t where
  | success
  | null_pointer
  | invalid_result_data
  | invalid_mnemonic
  | invalid_utf8_string
  | wrong_extended_key
  | unable_to_derive_hardened
  | invalid_derivation_path
  | bip32_failure
deriving DecidableEq, Repr

/-- Numeric value of each `error_t` member (C enum assigns 0,1,2,…). -/
def error_t.code : error_t → Nat
  | .success => 0
  | .null_pointer => 1
  | .invalid_result_data => 2
  | .invalid_mnemonic => 3
  | .invalid_utf8_string => 4
  | .wrong_extended_key => 5
  | .unable_to_derive_hardened => 6
  | .invalid_derivation_path => 7
  | .bip32_failure => 8

/-! ## Bech32 codec

Modelled from the spec (§4.1): the header declares `lnpbp_bech32_info` but
the implementation is not in `src/`, so the codec is the standard
bech32/bech32m algorithm the spec describes: checksum over the expanded
human-readable part and the 5-bit data values, two checksum constants
distinguishing the legacy and the "m" variant, mixed-case rejection, and a
payload-category classification of the decoded value. -/

/-- The 32-character bech32 data alphabet, as ASCII byte values
(the standard table `qpzry9x8gf2tvdw0s3jhcukema4567ln`). -/
def CHARSET : List Nat :=
  [113, 112, 122, 114, 121, 57, 120, 56,
   103, 102, 50, 116, 118, 100, 119, 48,
   115, 51, 106, 104, 99, 117, 107, 101,
   109, 97, 52, 53, 54, 55, 108, 110]

/-- Byte encoding a 5-bit data value. -/
def charsetByte (d : Nat) : Nat := CHARSET.getD d 0

/-- 5-bit value of a data-part byte, if it belongs to the alphabet. -/
def charsetRev (b : Nat) : Option Nat := CHARSET.findIdx? (· == b)

/-- XOR of the bech32 generator constants selected by the low 5 bits of `b`. -/
def bech32Gen (b : Nat) : Nat :=
  (if b.testBit 0 then 0x3b6a57b2 else 0) ^^^
  (if b.testBit 1 then 0x26508e6d else 0) ^^^
  (if b.testBit 2 then 0x1ea119fa else 0) ^^^
  (if b.testBit 3 then 0x3d4233dd else 0) ^^^
  (if b.testBit 4 then 0x2a1462b3 else 0)

/-- One step of the bech32 checksum recurrence. -/
def polymodStep (chk v : Nat) : Nat :=
  (((chk &&& 0x1ffffff) <<< 5) ^^^ v) ^^^ bech32Gen (chk >>> 25)

/-- The bech32 `polymod` checksum of a sequence of 5-bit values. -/
def polymod (vs : List Nat) : Nat := vs.foldl polymodStep 1

/-- Expansion of the human-readable part fed into the checksum. -/
def hrpExpand (hrp : List Nat) : List Nat :=
  hrp.map (· >>> 5) ++ [0] ++ hrp.map (· &&& 31)

/-- The two checksum variants (legacy bech32 vs bech32m). -/
inductive Bech32Variant where
  | legacy
  | m
deriving DecidableEq, Repr

/-- Checksum constant of each variant. -/
def variantConst : Bech32Variant → Nat
  | .legacy => 1
  | .m => 0x2bc830a3

/-- The six 5-bit checksum values appended by the encoder. -/
def bech32CreateChecksum (hrp data : List Nat) (v : Bech32Variant) : List Nat :=
  let pm := polymod (hrpExpand hrp ++ data ++ [0, 0, 0, 0, 0, 0]) ^^^ variantConst v
  [(pm >>> 25) &&& 31, (pm >>> 20) &&& 31, (pm >>> 15) &&& 31,
   (pm >>> 10) &&& 31, (pm >>> 5) &&& 31, pm &&& 31]

/-- Encoder: human-readable part, separator byte 49 (the character 1),
alphabet-encoded data and checksum. -/
def bech32_encode (hrp data : List Nat) (v : Bech32Variant) : List Nat :=
  hrp ++ 49 :: (data ++ bech32CreateChecksum hrp data v).map charsetByte

/-- Is the byte an upper-case ASCII letter? -/
def isUpperByte (b : Nat) : Bool := 65 ≤ b && b ≤ 90

/-- Is the byte a lower-case ASCII letter? -/
def isLowerByte (b : Nat) : Bool := 97 ≤ b && b ≤ 122

/-- A string is mixed-case when it contains both an upper-case and a
lower-case letter. -/
def mixedCase (s : List Nat) : Bool := s.any isUpperByte && s.any isLowerByte

/-- ASCII lower-casing of one byte. -/
def lowerByte (b : Nat) : Nat := if isUpperByte b then b + 32 else b

/-- Split a string at the LAST occurrence of the separator byte 49,
returning (human-readable part, data part). -/
def rsplitSep : List Nat → Option (List Nat × List Nat)
  | [] => none
  | b :: bs =>
    match rsplitSep bs with
    | some (h, d) => some (b :: h, d)
    | none => if b = 49 then some ([], bs) else none

/-- Map every data-part byte to its 5-bit value; `none` on a byte outside
the alphabet. -/
def mapCharsetRev : List Nat → Option (List Nat)
  | [] => some []
  | b :: bs =>
    match charsetRev b, mapCharsetRev bs with
    | some v, some vs => some (v :: vs)
    | _, _ => none

/-- Successful decode: the human-readable part, the 5-bit payload values
(checksum stripped) and which checksum variant validated. -/
structure Bech32Decoded where
  hrp : List Nat
  data : List Nat
  isM : Bool
deriving DecidableEq, Repr

/-- Modelled from the spec: the bech32 decoder behind `lnpbp_bech32_info`
(not present in `src/`).  Rejects mixed case, lower-cases, splits at the
last separator, maps the data part through the alphabet and accepts exactly
the strings on which one of the two checksum constants validates. -/
def bech32_decode (s : List Nat) : Except Nat Bech32Decoded :=
  if mixedCase s then .error BECH32_ERR_ENCODING
  else
    match rsplitSep (s.map lowerByte) with
    | none => .error BECH32_ERR_HRP
    | some (hrp, dataPart) =>
      if hrp.isEmpty then .error BECH32_ERR_HRP
      else if dataPart.length < 6 then .error BECH32_ERR_PAYLOAD
      else
        match mapCharsetRev dataPart with
        | none => .error BECH32_ERR_ENCODING
        | some vals =>
          if polymod (hrpExpand hrp ++ vals) = 1 then
            .ok ⟨hrp, vals.take (vals.length - 6), false⟩
          else if polymod (hrpExpand hrp ++ vals) = 0x2bc830a3 then
            .ok ⟨hrp, vals.take (vals.length - 6), true⟩
          else .error BECH32_ERR_CHECKSUM

/-- The closed enumeration of payload categories of libmycitadel.h. -/
inductive Bech32Category where
  | unknown
  | url
  | bcAddress
  | lnBolt11
  | lnpbpId
  | lnpbpData
  | lnpbpZdata
  | lnpbpInvoice
  | rgbSchemaId
  | rgbContractId
  | rgbSchema
  | rgbGenesis
  | rgbConsignment
  | rgb20Asset
deriving DecidableEq, Repr, Fintype

/-- Numeric tag of each category, exactly the `BECH32_*` constants of the
header. -/
def bech32CategoryTag : Bech32Category → Nat
  | .unknown => BECH32_UNKNOWN
  | .url => BECH32_URL
  | .bcAddress => BECH32_BC_ADDRESS
  | .lnBolt11 => BECH32_LN_BOLT11
  | .lnpbpId => BECH32_LNPBP_ID
  | .lnpbpData => BECH32_LNPBP_DATA
  | .lnpbpZdata => BECH32_LNPBP_ZDATA
  | .lnpbpInvoice => BECH32_LNPBP_INVOICE
  | .rgbSchemaId => BECH32_RGB_SCHEMA_ID
  | .rgbContractId => BECH32_RGB_CONTRACT_ID
  | .rgbSchema => BECH32_RGB_SCHEMA
  | .rgbGenesis => BECH32_RGB_GENESIS
  | .rgbConsignment => BECH32_RGB_CONSIGNMENT
  | .rgb20Asset => BECH32_RGB20_ASSET

/-- Modelled from the spec: the payload category is recovered from
structural markers of the decoded value (the classification table itself is
not in `src/`); here the human-readable part selects the category, with
`unknown` as the default. -/
def bech32Classify (hrp : List Nat) : Bech32Category :=
  if hrp = [98, 99] ∨ hrp = [116, 98] then .bcAddress
  else if hrp = [108, 110, 98, 99] then .lnBolt11
  else if hrp = [105, 100] then .lnpbpId
  else if hrp = [100, 97, 116, 97] then .lnpbpData
  else if hrp = [122, 100, 97, 116, 97] then .lnpbpZdata
  else if hrp = [105] then .lnpbpInvoice
  else if hrp = [115, 99, 104] then .rgbSchemaId
  else if hrp = [114, 103, 98] then .rgbContractId
  else if hrp = [115, 99, 104, 101, 109, 97] then .rgbSchema
  else if hrp = [103, 101, 110, 101, 115, 105, 115] then .rgbGenesis
  else if hrp = [99, 111, 110, 115, 105, 103, 110, 109, 101, 110, 116] then .rgbConsignment
  else if hrp = [114, 103, 98, 50, 48, 97] then .rgb20Asset
  else if hrp = [117, 114, 108] then .url
  else .unknown

/-- The `bech32_info_t` struct of the header: status, payload-category tag,
checksum-variant flag and the detail string (modelled as bytes). -/
structure bech32_info_t where
  status : Nat
  category : Nat
  bech32m : Bool
  details : List Nat
deriving DecidableEq, Repr

/-- `lnpbp_bech32_info`: decode a bech32 string and classify its payload. -/
def lnpbp_bech32_info (s : List Nat) : bech32_info_t :=
  match bech32_decode s with
  | .error e => ⟨e, BECH32_UNKNOWN, false, []⟩
  | .ok d => ⟨BECH32_OK, bech32CategoryTag (bech32Classify d.hrp), d.isM, d.data⟩

/-! ## Client session handle (C10) -/

/-- The `mycitadel_client_t` struct: an opaque engine pointer, the last
message and the last error number.  The opaque part is irrelevant to the
status predicates and is modelled as the message history only. -/
structure mycitadel_client_t where
  message : List Nat
  err_no : Nat
deriving DecidableEq, Repr

/-- Modelled from the spec: `mycitadel_is_ok` — the boolean convenience
check that the last operation succeeded, determined by the client's
`err_no` field being `SUCCESS` (the implementation is not in `src/`). -/
def mycitadel_is_ok (client : mycitadel_client_t) : Bool :=
  client.err_no = SUCCESS

/-- Modelled from the spec: `mycitadel_has_err` — true exactly when the
client's `err_no` field differs from `SUCCESS`. -/
def mycitadel_has_err (client : mycitadel_client_t) : Bool :=
  client.err_no ≠ SUCCESS

/-! ## HD key material (BIP-32, claims C1/C2/C7)

Modelled from the spec (§4.3): the header declares `bip32_derive_xpriv`
and `bip32_derive_xpub` but the engine is not in `src/`.  Extended keys
carry key material, chain code, depth, parent fingerprint and child index;
each path step is applied left to right; hardened steps need the parent
private key.  The secp256k1 group and HMAC-SHA512 are trusted external
primitives (spec §2); they are modelled by explicit deterministic
executable stand-ins: the group as addition modulo the curve order with a
point represented by its scalar, the hash as a deterministic polynomial
mixing function. -/

/-- The secp256k1 group order (an external constant). -/
def secpOrder : Nat :=
  0xfffffffffffffffffffffffffffffffebaaedce6af48a03bbfd25e8cd0364141

/-- Big-endian byte expansion of a natural number. -/
def natBytes (n : Nat) : List Nat :=
  if n = 0 then [] else natBytes (n / 256) ++ [n % 256]
decreasing_by exact Nat.div_lt_self (Nat.pos_of_ne_zero (by assumption)) (by omega)

/-- Modelled from the spec: HMAC-SHA512 is an external primitive; this
deterministic stand-in mixes key and message into a 512-bit value and
returns the left and right 256-bit halves. -/
def hmac512 (key msg : List Nat) : Nat × Nat :=
  let h := (key ++ 255 :: msg).foldl
    (fun a b => (a * 340282366920938463463374607431768211507 + b + 99) % 2 ^ 512) 1
  (h >>> 256, h % 2 ^ 256)

/-- Modelled from the spec: the public point of a secret scalar, with the
external secp256k1 group abstracted to addition modulo its order (a point
is represented by its discrete logarithm). -/
def pubOf (secret : Nat) : Nat := secret % secpOrder

/-- Modelled from the spec: the parent-key fingerprint (externally
HASH160 of the serialized public key, here a deterministic 32-bit digest
of the point bytes). -/
def fingerprintOf (point : Nat) : Nat :=
  (natBytes point).foldl (fun a b => (a * 257 + b + 1) % 2 ^ 32) 3

/-- An extended private key. -/
structure XPrivKey where
  depth : Nat
  parentFingerprint : Nat
  childNumber : Nat
  chainCode : Nat
  secret : Nat
deriving DecidableEq, Repr

/-- An extended public key. -/
structure XPubKey where
  depth : Nat
  parentFingerprint : Nat
  childNumber : Nat
  chainCode : Nat
  point : Nat
deriving DecidableEq, Repr

/-- The public extended key of a private one. -/
def neuter (k : XPrivKey) : XPubKey :=
  ⟨k.depth, k.parentFingerprint, k.childNumber, k.chainCode, pubOf k.secret⟩

/-- One step of a derivation path: child index and hardened flag. -/
structure PathStep where
  index : Nat
  hardened : Bool
deriving DecidableEq, Repr

/-- Child derivation from a private key: hardened steps mix the parent
private key, non-hardened steps the parent public key, with the chain
code. -/
def ckdPriv (k : XPrivKey) (s : PathStep) : XPrivKey :=
  let idx := if s.hardened then s.index + 2 ^ 31 else s.index
  let msg :=
    (if s.hardened then 0 :: natBytes k.secret else natBytes (pubOf k.secret)) ++ natBytes idx
  let mixed := hmac512 (natBytes k.chainCode) msg
  { depth := k.depth + 1
    parentFingerprint := fingerprintOf (pubOf k.secret)
    childNumber := idx
    chainCode := mixed.2
    secret := (mixed.1 + k.secret) % secpOrder }

/-- Non-hardened child derivation from a public key. -/
def ckdPub (kp : XPubKey) (i : Nat) : XPubKey :=
  let mixed := hmac512 (natBytes kp.chainCode) (natBytes kp.point ++ natBytes i)
  { depth := kp.depth + 1
    parentFingerprint := fingerprintOf kp.point
    childNumber := i
    chainCode := mixed.2
    point := (kp.point + mixed.1 % secpOrder) % secpOrder }

/-- Derive along a whole path from a private key (left to right). -/
def derivePriv (k : XPrivKey) (path : List PathStep) : XPrivKey :=
  path.foldl ckdPriv k

/-- Derive along a whole path from a public-only key: a hardened step is
the distinct `unable_to_derive_hardened` failure. -/
def derivePubOnly : XPubKey → List PathStep → Except error_t XPubKey
  | kp, [] => .ok kp
  | kp, s :: rest =>
    if s.hardened then .error .unable_to_derive_hardened
    else derivePubOnly (ckdPub kp s.index) rest

/-- Derive an extended public key from a master that is either private or
public-only. -/
def derivePub : XPrivKey ⊕ XPubKey → List PathStep → Except error_t XPubKey
  | .inl k, path => .ok (neuter (derivePriv k path))
  | .inr kp, path => derivePubOnly kp path

/-- Serialized form of an extended private key (deterministic byte
rendering of all fields). -/
def serXPriv (k : XPrivKey) : List Nat :=
  k.depth % 256 :: (natBytes k.parentFingerprint ++ natBytes k.childNumber ++
    natBytes k.chainCode ++ 0 :: natBytes k.secret)

/-- Serialized form of an extended public key. -/
def serXPub (kp : XPubKey) : List Nat :=
  kp.depth % 256 :: (natBytes kp.parentFingerprint ++ natBytes kp.childNumber ++
    natBytes kp.chainCode ++ natBytes kp.point)

/-- The `string_result_t` struct: an `error_t` code and the result string
(success payload when the code is `success`, error message otherwise),
modelled as bytes. -/
structure string_result_t where
  code : error_t
  details : List Nat
deriving DecidableEq, Repr

/-- `is_success` of the header. -/
def is_success (result : string_result_t) : Bool :=
  result.code = error_t.success

/-- Zero every byte of a caller-provided buffer. -/
def wipeBuf (buf : List Nat) : List Nat := buf.map fun _ => 0

/-- Modelled from the spec: `bip32_derive_xpriv` — derive a child extended
private key along `path` from the structurally valid master `master`
(whose caller-owned byte buffer is `masterBuf`), returning the serialized
result and the buffer as the caller sees it after the call (zeroed when
`wipe` is set). -/
def bip32_derive_xpriv (master : XPrivKey) (masterBuf : List Nat) (wipe : Bool)
    (path : List PathStep) : string_result_t × List Nat :=
  (⟨.success, serXPriv (derivePriv master path)⟩,
   if wipe then wipeBuf masterBuf else masterBuf)

/-- Modelled from the spec: `bip32_derive_xpub` — derive a child extended
public key along `path` from a master that is either an extended private
or an extended public key. -/
def bip32_derive_xpub (master : XPrivKey ⊕ XPubKey) (masterBuf : List Nat) (wipe : Bool)
    (path : List PathStep) : string_result_t × List Nat :=
  (match derivePub master path with
   | .ok kp => ⟨.success, serXPub kp⟩
   | .error e => ⟨e, []⟩,
   if wipe then wipeBuf masterBuf else masterBuf)

/-! ## Mnemonic and seed engine (BIP-39, claims C5/C7) -/

/-- The `bip39_mnemonic_type` enum of the header. -/
inductive bip39_mnemonic_type where
  | words_12
  | words_15
  | words_18
  | words_21
  | words_24
deriving DecidableEq, Repr

/-- Entropy length in bytes demanded by each variant (spec §4.2:
16/20/24/28/32 bytes for 12/15/18/21/24 words). -/
def mnemonicEntropyBytes : bip39_mnemonic_type → Nat
  | .words_12 => 16
  | .words_15 => 20
  | .words_18 => 24
  | .words_21 => 28
  | .words_24 => 32

/-- Checksum bit count of each variant (one bit per 32 entropy bits). -/
def mnemonicChecksumBits : bip39_mnemonic_type → Nat
  | .words_12 => 4
  | .words_15 => 5
  | .words_18 => 6
  | .words_21 => 7
  | .words_24 => 8

/-- Most-significant-bit-first bit expansion of the low `len` bits. -/
def natToBits : Nat → Nat → List Bool
  | _, 0 => []
  | n, len + 1 => n.testBit len :: natToBits (n % 2 ^ len) len

/-- Numeric value of a most-significant-bit-first bit string. -/
def bitsToNat : List Bool → Nat
  | [] => 0
  | b :: bs => b.toNat * 2 ^ bs.length + bitsToNat bs

/-- Bit expansion of a byte string, 8 bits per byte. -/
def bytesToBits : List Nat → List Bool
  | [] => []
  | b :: bs => natToBits b 8 ++ bytesToBits bs

/-- Bit expansion of a word-index string, 11 bits per word. -/
def wordsToBits : List Nat → List Bool
  | [] => []
  | w :: ws => natToBits w 11 ++ wordsToBits ws

/-- Group a bit string into chunks of `k + 1` bits, each read as a number. -/
def chunkBits (k : Nat) (bs : List Bool) : List Nat :=
  if bs.isEmpty then []
  else bitsToNat (bs.take (k + 1)) :: chunkBits k (bs.drop (k + 1))
termination_by bs.length
decreasing_by
  simp only [List.length_drop]
  have : bs.length ≠ 0 := by
    intro h
    exact absurd (List.isEmpty_iff_length_eq_zero.mpr h) (by assumption)
  omega

/-- Modelled from the spec: SHA-256 is an external primitive; this
deterministic stand-in yields the 8 leading digest bits used for the
mnemonic checksum. -/
def shaChecksumBits (entropy : List Nat) : List Bool :=
  natToBits ((entropy.foldl (fun a b => (a * 131 + b + 17) % 65521) 7) % 256) 8

/-- Modelled from the spec: `bip39_mnemonic_create` — the entropy length
must exactly match the requested variant, otherwise the call fails with
`invalid_mnemonic`; on a match the mnemonic encodes entropy plus checksum
bits in 11-bit groups.  The 2048-word table is an external fixed list, so
a mnemonic is represented by its word indices. -/
def bip39_mnemonic_create (entropy : List Nat) (mnemonic_type : bip39_mnemonic_type) :
    Except error_t (List Nat) :=
  if entropy.length = mnemonicEntropyBytes mnemonic_type then
    .ok (chunkBits 10
      (bytesToBits entropy ++ (shaChecksumBits entropy).take (mnemonicChecksumBits mnemonic_type)))
  else .error .invalid_mnemonic

/-- Modelled from the spec: recover the entropy encoded by a mnemonic —
the leading 32/33 of the mnemonic bits, regrouped into bytes. -/
def mnemonicEntropy (mnemonic : List Nat) : List Nat :=
  chunkBits 7 ((wordsToBits mnemonic).take (32 * (11 * mnemonic.length / 33)))

/-- Modelled from the spec: `bip39_master_xpriv` — stretch the mnemonic
and passphrase into a seed and produce the master extended private key,
zeroing both caller buffers when `wipe` is set; `testnet` selects the
version prefix of the serialized key. -/
def bip39_master_xpriv (seed_phrase passwd : List Nat) (wipe testnet : Bool) :
    string_result_t × List Nat × List Nat :=
  let seed := hmac512 seed_phrase passwd
  let master : XPrivKey :=
    ⟨0, 0, 0, seed.2, seed.1 % secpOrder⟩
  (⟨.success,
    (if testnet then [4, 53, 131, 148] else [4, 136, 173, 228]) ++ serXPriv master⟩,
   (if wipe then wipeBuf seed_phrase else seed_phrase),
   (if wipe then wipeBuf passwd else passwd))

/-! ## Transaction signing engine (PSBT, claims C6/C7)

Modelled from the spec (§4.4): the header declares `psbt_sign` but the
engine is not in `src/`.  A partially-signed transaction is a list of
inputs; each input carries the correlation data matching it to key
material (the set of controlling public points) and its accumulated
partial signatures.  Signing inserts, for every input the key controls,
a signature over that input's signing digest, altering nothing else. -/

/-- One transaction input: matching data and partial signatures
(public point, signature bytes). -/
structure TxInput where
  controllingPoints : List Nat
  digest : Nat
  partialSigs : List (Nat × List Nat)
deriving DecidableEq, Repr

/-- A partially-signed transaction. -/
structure Psbt where
  inputs : List TxInput
deriving DecidableEq, Repr

/-- Does the key control the input (public-key correlation embedded in
the structure)? -/
def controls (k : XPrivKey) (inp : TxInput) : Bool :=
  inp.controllingPoints.contains (pubOf k.secret)

/-- Modelled from the spec: ECDSA signing is an external primitive; the
stand-in is a deterministic signature over the input digest. -/
def mkSig (k : XPrivKey) (inp : TxInput) : List Nat :=
  natBytes ((inp.digest * 2 ^ 256 + pubOf k.secret) % 2 ^ 512 + 2 ^ 513)

/-- Insert or replace the signature of one public point, keeping every
other entry. -/
def insertSig (pk : Nat) (sig : List Nat) (sigs : List (Nat × List Nat)) :
    List (Nat × List Nat) :=
  if sigs.any (fun p => p.1 = pk) then
    sigs.map fun p => if p.1 = pk then (pk, sig) else p
  else sigs ++ [(pk, sig)]

/-- Sign one input if the key controls it, leaving it untouched otherwise. -/
def signInput (k : XPrivKey) (inp : TxInput) : TxInput :=
  if controls k inp then
    { inp with partialSigs := insertSig (pubOf k.secret) (mkSig k inp) inp.partialSigs }
  else inp

/-- Modelled from the spec: the pure signing engine behind `psbt_sign`. -/
def psbtSign (psbt : Psbt) (k : XPrivKey) : Psbt :=
  ⟨psbt.inputs.map (signInput k)⟩

/-- Modelled from the spec: `psbt_sign` — sign the transaction with the
extended private key, zeroing the caller's key buffer when `wipe` is
set. -/
def psbt_sign (psbt : Psbt) (xprivBuf : List Nat) (k : XPrivKey) (wipe : Bool) :
    string_result_t × Psbt × List Nat :=
  (⟨.success, []⟩, psbtSign psbt k,
   if wipe then wipeBuf xprivBuf else xprivBuf)

/-! ## Invoice state machine (claim C8)

Modelled from the spec (§4.5): invoice lifecycle
`created → paid/accepted → archived`; accept is valid from `created` or
`paid` and re-accepting an already-accepted invoice is a no-op. -/

/-- Invoice lifecycle states. -/
inductive InvoiceState where
  | created
  | paid
  | accepted
  | archived
deriving DecidableEq, Repr

/-- Observable wallet state relevant to invoices: each invoice id with its
lifecycle state. -/
structure WalletState where
  invoices : List (Nat × InvoiceState)
deriving DecidableEq, Repr

/-- State of one invoice, if present. -/
def lookupInvoice (w : WalletState) (i : Nat) : Option InvoiceState :=
  (w.invoices.find? (fun p => p.1 = i)).map (·.2)

/-- Set the state of one invoice. -/
def setInvoice (w : WalletState) (i : Nat) (st : InvoiceState) : WalletState :=
  ⟨w.invoices.map fun p => if p.1 = i then (p.1, st) else p⟩

/-- Modelled from the spec: `mycitadel_invoice_accept` — accept an
invoice: valid from `created` or `paid`; a no-op success on an
already-accepted invoice; an error (state unchanged) otherwise. -/
def mycitadel_invoice_accept (w : WalletState) (i : Nat) :
    (Except Nat Unit) × WalletState :=
  match lookupInvoice w i with
  | none => (.error ERRNO_PARSE, w)
  | some .archived => (.error ERRNO_NOTSUPPORTED, w)
  | some _ => (.ok (), setInvoice w i .accepted)

/-! ## Theorems -/

theorem wipeBuf_eq_replicate (l : List Nat) : wipeBuf l = List.replicate l.length 0 := by
  induction l with
  | nil => rfl
  | cons a t ih =>
    simp only [wipeBuf, List.map_cons, List.length_cons, List.replicate_succ]
    exact congrArg _ ih

/-- Claim C10: for every client state, `mycitadel_is_ok` is the exact
negation of `mycitadel_has_err`, both determined solely by whether the
`err_no` field equals `SUCCESS`, and no state makes both true or both
false. -/
theorem claim_C10 (c : mycitadel_client_t) :
    mycitadel_is_ok c = !mycitadel_has_err c ∧
    mycitadel_is_ok c = decide (c.err_no = SUCCESS) ∧
    mycitadel_has_err c = !decide (c.err_no = SUCCESS) ∧
    (mycitadel_is_ok c && mycitadel_has_err c) = false ∧
    (mycitadel_is_ok c || mycitadel_has_err c) = true := by
  unfold mycitadel_is_ok mycitadel_has_err
  by_cases h : c.err_no = SUCCESS <;> simp [h]

/-- Claim C9 counterexample: the category-to-tag mapping of the header is
not injective — `BECH32_RGB_CONSIGNMENT` and `BECH32_RGB20_ASSET` are
distinct categories sharing the numeric tag 800. -/
theorem claim_C9_counterexample :
    bech32CategoryTag Bech32Category.rgbConsignment = 800 ∧
    bech32CategoryTag Bech32Category.rgb20Asset = 800 ∧
    (Bech32Category.rgbConsignment == Bech32Category.rgb20Asset) = false := by
  decide

/-- Claim C9 (amended): the category-to-tag mapping is injective except
for the single alias pair consignment/RGB20-asset (both tagged 800), and
the category field returned by `lnpbp_bech32_info` on success is always
one of the enumerated tag values. -/
theorem claim_C9_amended :
    (∀ c₁ c₂ : Bech32Category, bech32CategoryTag c₁ = bech32CategoryTag c₂ →
      c₁ = c₂ ∨
      (c₁ = Bech32Category.rgbConsignment ∧ c₂ = Bech32Category.rgb20Asset) ∨
      (c₁ = Bech32Category.rgb20Asset ∧ c₂ = Bech32Category.rgbConsignment)) ∧
    (∀ s : List Nat, (lnpbp_bech32_info s).status = BECH32_OK →
      ∃ c : Bech32Category, (lnpbp_bech32_info s).category = bech32CategoryTag c) := by
  constructor
  · decide
  · intro s _
    rcases hdec : bech32_decode s with e | d
    · exact ⟨Bech32Category.unknown, by simp [lnpbp_bech32_info, hdec, bech32CategoryTag]⟩
    · exact ⟨bech32Classify d.hrp, by simp [lnpbp_bech32_info, hdec]⟩

/-- Claim C7: with the wipe flag set, every caller-provided secret buffer
(mnemonic, passphrase, master key, signing key) comes back fully zeroed
from `bip39_master_xpriv`, `bip32_derive_xpriv`, `bip32_derive_xpub` and
`psbt_sign`. -/
theorem claim_C7 (seed_phrase passwd masterBuf xprivBuf : List Nat)
    (k : XPrivKey) (mk : XPrivKey ⊕ XPubKey) (path : List PathStep)
    (testnet : Bool) (psbt : Psbt) :
    (bip39_master_xpriv seed_phrase passwd true testnet).2.1
      = List.replicate seed_phrase.length 0 ∧
    (bip39_master_xpriv seed_phrase passwd true testnet).2.2
      = List.replicate passwd.length 0 ∧
    (bip32_derive_xpriv k masterBuf true path).2
      = List.replicate masterBuf.length 0 ∧
    (bip32_derive_xpub mk masterBuf true path).2
      = List.replicate masterBuf.length 0 ∧
    (psbt_sign psbt xprivBuf k true).2.2
      = List.replicate xprivBuf.length 0 := by
  refine ⟨?_, ?_, ?_, ?_, ?_⟩ <;>
    simp [bip39_master_xpriv, bip32_derive_xpriv, bip32_derive_xpub, psbt_sign,
      wipeBuf_eq_replicate]

theorem lookupInvoice_setInvoice (w : WalletState) (i : Nat) (st₀ st : InvoiceState)
    (h : lookupInvoice w i = some st₀) :
    lookupInvoice (setInvoice w i st) i = some st := by
  unfold lookupInvoice at h
  unfold lookupInvoice setInvoice
  rw [List.find?_map]
  have hpred : ((fun p : Nat × InvoiceState => decide (p.1 = i)) ∘
      (fun p : Nat × InvoiceState => if p.1 = i then (p.1, st) else p))
      = (fun p : Nat × InvoiceState => decide (p.1 = i)) := by
    funext p
    by_cases hp : p.1 = i <;> simp [hp]
  rw [hpred]
  rcases hf : List.find? (fun p : Nat × InvoiceState => decide (p.1 = i)) w.invoices
    with _ | q
  · rw [hf] at h
    simp at h
  · have hq : q.1 = i := by simpa using List.find?_some hf
    simp [hq]

theorem setInvoice_setInvoice (w : WalletState) (i : Nat) (st : InvoiceState) :
    setInvoice (setInvoice w i st) i st = setInvoice w i st := by
  rcases w with ⟨l⟩
  simp only [setInvoice, List.map_map, WalletState.mk.injEq]
  apply List.map_congr_left
  intro p _
  by_cases hp : p.1 = i <;> simp [hp, Function.comp]

/-- Claim C8 counterexample: accepting an already-archived invoice twice —
the second call (like the first) reports an error, not success, so the
claim that the second call always reports success fails. -/
theorem claim_C8_counterexample :
    (mycitadel_invoice_accept
        (mycitadel_invoice_accept ⟨[(7, InvoiceState.archived)]⟩ 7).2 7).1
      = Except.error ERRNO_NOTSUPPORTED ∧
    (mycitadel_invoice_accept
        (mycitadel_invoice_accept ⟨[(7, InvoiceState.archived)]⟩ 7).2 7).2
      = (mycitadel_invoice_accept ⟨[(7, InvoiceState.archived)]⟩ 7).2 := by
  constructor <;> rfl

/-- Claim C8 (amended): accepting the same invoice twice in a row leaves
the wallet in exactly the state of accepting it once, and the second call
reports success whenever the first one did. -/
theorem claim_C8_amended (w : WalletState) (i : Nat) :
    (mycitadel_invoice_accept (mycitadel_invoice_accept w i).2 i).2
      = (mycitadel_invoice_accept w i).2 ∧
    ((mycitadel_invoice_accept w i).1 = Except.ok () →
      (mycitadel_invoice_accept (mycitadel_invoice_accept w i).2 i).1 = Except.ok ()) := by
  rcases h : lookupInvoice w i with _ | st
  · simp [mycitadel_invoice_accept, h]
  · cases st
    case archived => simp [mycitadel_invoice_accept, h]
    all_goals
      have h2 := lookupInvoice_setInvoice w i _ InvoiceState.accepted h
      simp [mycitadel_invoice_accept, h, h2, setInvoice_setInvoice]

/-- Claim C8 witness: a concrete invoice in the `created` state, accepted
twice — same state as accepting once, second call succeeds. -/
theorem claim_C8_witness :
    (mycitadel_invoice_accept
        (mycitadel_invoice_accept ⟨[(3, InvoiceState.created)]⟩ 3).2 3).2
      = (mycitadel_invoice_accept ⟨[(3, InvoiceState.created)]⟩ 3).2 ∧
    (mycitadel_invoice_accept
        (mycitadel_invoice_accept ⟨[(3, InvoiceState.created)]⟩ 3).2 3).1
      = Except.ok () :=
  ⟨(claim_C8_amended ⟨[(3, InvoiceState.created)]⟩ 3).1,
   (claim_C8_amended ⟨[(3, InvoiceState.created)]⟩ 3).2 rfl⟩

/-- Claim C9 witness: the amended statement applied at a concrete pair of
categories and at a concrete successfully-decoded string. -/
theorem claim_C9_witness :
    (Bech32Category.unknown = Bech32Category.unknown ∨
      (Bech32Category.unknown = Bech32Category.rgbConsignment ∧
        Bech32Category.unknown = Bech32Category.rgb20Asset) ∨
      (Bech32Category.unknown = Bech32Category.rgb20Asset ∧
        Bech32Category.unknown = Bech32Category.rgbConsignment)) ∧
    (∃ c : Bech32Category,
      (lnpbp_bech32_info
        (bech32_encode [98, 99] [0, 1, 2, 3, 4, 5] Bech32Variant.legacy)).category
        = bech32CategoryTag c) :=
  ⟨claim_C9_amended.1 Bech32Category.unknown Bech32Category.unknown rfl,
   claim_C9_amended.2 (bech32_encode [98, 99] [0, 1, 2, 3, 4, 5] Bech32Variant.legacy)
     (by decide)⟩

theorem insertSig_map_self (pk : Nat) (sig : List Nat) (l : List (Nat × List Nat)) :
    ((l.map fun p => if p.1 = pk then (pk, sig) else p).map
        fun p => if p.1 = pk then (pk, sig) else p)
      = l.map fun p => if p.1 = pk then (pk, sig) else p := by
  rw [List.map_map]
  apply List.map_congr_left
  intro p _
  by_cases hp : p.1 = pk <;> simp [Function.comp, hp]

theorem insertSig_map_id (pk : Nat) (sig : List Nat) (l : List (Nat × List Nat))
    (h : l.any (fun p => decide (p.1 = pk)) = false) :
    (l.map fun p => if p.1 = pk then (pk, sig) else p) = l := by
  induction l with
  | nil => rfl
  | cons q t ih =>
    simp only [List.any_cons, Bool.or_eq_false_iff] at h
    simp only [List.map_cons]
    rw [if_neg (by simpa using h.1), ih h.2]

theorem insertSig_any (pk : Nat) (sig : List Nat) (l : List (Nat × List Nat))
    (h : l.any (fun p => decide (p.1 = pk)) = true) :
    (l.map fun p => if p.1 = pk then (pk, sig) else p).any
      (fun p => decide (p.1 = pk)) = true := by
  induction l with
  | nil => simp at h
  | cons q t ih =>
    simp only [List.any_cons, Bool.or_eq_true] at h
    rcases h with h | h
    · have hq : q.1 = pk := by simpa using h
      simp [hq]
    · simp [List.any_cons, ih h]

theorem insertSig_idem (pk : Nat) (sig : List Nat) (l : List (Nat × List Nat)) :
    insertSig pk sig (insertSig pk sig l) = insertSig pk sig l := by
  by_cases ha : (l.any fun p => decide (p.1 = pk)) = true
  · have h1 : insertSig pk sig l
        = l.map fun p => if p.1 = pk then (pk, sig) else p := by
      unfold insertSig
      rw [if_pos ha]
    rw [h1]
    unfold insertSig
    rw [if_pos (insertSig_any pk sig l ha)]
    exact insertSig_map_self pk sig l
  · have ha2 : (l.any fun p => decide (p.1 = pk)) = false :=
      Bool.eq_false_iff.mpr ha
    have h1 : insertSig pk sig l = l ++ [(pk, sig)] := by
      unfold insertSig
      rw [if_neg ha]
    rw [h1]
    unfold insertSig
    have hb : ((l ++ [(pk, sig)]).any fun p => decide (p.1 = pk)) = true := by
      simp [List.any_append]
    rw [if_pos hb, List.map_append, insertSig_map_id pk sig l ha2]
    simp

theorem signInput_idem (k : XPrivKey) (inp : TxInput) :
    signInput k (signInput k inp) = signInput k inp := by
  unfold signInput
  rcases hc : controls k inp with _ | _
  · simp [hc]
  · have hc2 : controls k { inp with
        partialSigs := insertSig (pubOf k.secret) (mkSig k inp) inp.partialSigs } = true := by
      simpa [controls] using hc
    have hm : mkSig k { inp with
        partialSigs := insertSig (pubOf k.secret) (mkSig k inp) inp.partialSigs }
        = mkSig k inp := rfl
    simp [hc, hc2, hm, insertSig_idem]

theorem signInput_frame (k : XPrivKey) (inp : TxInput) (h : controls k inp = false) :
    signInput k inp = inp := by
  simp [signInput, h]

theorem getD_map_signInput (k : XPrivKey) (l : List TxInput) (i : Nat)
    (h : controls k (l.getD i ⟨[], 0, []⟩) = false) :
    (l.map (signInput k)).getD i ⟨[], 0, []⟩ = l.getD i ⟨[], 0, []⟩ := by
  induction l generalizing i with
  | nil => simp
  | cons a t ih =>
    cases i with
    | zero =>
      simp only [List.getD_cons_zero, List.map_cons] at h ⊢
      exact signInput_frame k a h
    | succ j =>
      simp only [List.getD_cons_succ, List.map_cons] at h ⊢
      exact ih j h

/-- Claim C6: signing a partially-signed transaction twice with the same
key yields exactly the structure of signing it once (so no signature
present after the first signing is removed or invalidated), and every
input the key does not control is byte-identical before and after. -/
theorem claim_C6 (p : Psbt) (k : XPrivKey) :
    psbtSign (psbtSign p k) k = psbtSign p k ∧
    ∀ i : Nat, controls k (p.inputs.getD i ⟨[], 0, []⟩) = false →
      (psbtSign p k).inputs.getD i ⟨[], 0, []⟩ = p.inputs.getD i ⟨[], 0, []⟩ := by
  constructor
  · unfold psbtSign
    simp only [Psbt.mk.injEq, List.map_map]
    apply List.map_congr_left
    intro inp _
    exact signInput_idem k inp
  · intro i h
    exact getD_map_signInput k p.inputs i h

/-- Claim C6 witness: a concrete one-input transaction whose input the key
does not control — double signing equals single signing and the input is
untouched. -/
theorem claim_C6_witness :
    psbtSign (psbtSign ⟨[⟨[], 0, []⟩]⟩ ⟨0, 0, 0, 0, 0⟩) ⟨0, 0, 0, 0, 0⟩
      = psbtSign ⟨[⟨[], 0, []⟩]⟩ ⟨0, 0, 0, 0, 0⟩ ∧
    (psbtSign ⟨[⟨[], 0, []⟩]⟩ (⟨0, 0, 0, 0, 0⟩ : XPrivKey)).inputs.getD 0 ⟨[], 0, []⟩
      = (Psbt.mk [⟨[], 0, []⟩]).inputs.getD 0 ⟨[], 0, []⟩ :=
  ⟨(claim_C6 ⟨[⟨[], 0, []⟩]⟩ ⟨0, 0, 0, 0, 0⟩).1,
   (claim_C6 ⟨[⟨[], 0, []⟩]⟩ ⟨0, 0, 0, 0, 0⟩).2 0 (by decide)⟩

/-- Claim C1: BIP-32 derivation is a deterministic function of the master
key, the wipe flag and the path — any two results of calling
`bip32_derive_xpriv` (resp. `bip32_derive_xpub`) on the same arguments
carry identical result codes and byte-identical payloads. -/
theorem claim_C1 (master : XPrivKey) (masterPub : XPrivKey ⊕ XPubKey)
    (masterBuf : List Nat) (wipe : Bool) (path : List PathStep) :
    (∀ r₁ r₂ : string_result_t × List Nat,
      r₁ = bip32_derive_xpriv master masterBuf wipe path →
      r₂ = bip32_derive_xpriv master masterBuf wipe path →
      r₁.1.code = r₂.1.code ∧ r₁.1.details = r₂.1.details) ∧
    (∀ r₁ r₂ : string_result_t × List Nat,
      r₁ = bip32_derive_xpub masterPub masterBuf wipe path →
      r₂ = bip32_derive_xpub masterPub masterBuf wipe path →
      r₁.1.code = r₂.1.code ∧ r₁.1.details = r₂.1.details) := by
  constructor <;> rintro r₁ r₂ rfl rfl <;> exact ⟨rfl, rfl⟩

/-- Claim C1 witness: the determinism statement applied at a concrete
master key, path and wipe flag. -/
theorem claim_C1_witness :
    ((bip32_derive_xpriv ⟨0, 0, 0, 7, 5⟩ [1, 2] false [⟨0, false⟩]).1.code
        = (bip32_derive_xpriv ⟨0, 0, 0, 7, 5⟩ [1, 2] false [⟨0, false⟩]).1.code ∧
      (bip32_derive_xpriv ⟨0, 0, 0, 7, 5⟩ [1, 2] false [⟨0, false⟩]).1.details
        = (bip32_derive_xpriv ⟨0, 0, 0, 7, 5⟩ [1, 2] false [⟨0, false⟩]).1.details) ∧
    ((bip32_derive_xpub (Sum.inr ⟨0, 0, 0, 7, 5⟩) [1, 2] false [⟨0, false⟩]).1.code
        = (bip32_derive_xpub (Sum.inr ⟨0, 0, 0, 7, 5⟩) [1, 2] false [⟨0, false⟩]).1.code ∧
      (bip32_derive_xpub (Sum.inr ⟨0, 0, 0, 7, 5⟩) [1, 2] false [⟨0, false⟩]).1.details
        = (bip32_derive_xpub (Sum.inr ⟨0, 0, 0, 7, 5⟩) [1, 2] false [⟨0, false⟩]).1.details) :=
  ⟨(claim_C1 ⟨0, 0, 0, 7, 5⟩ (Sum.inr ⟨0, 0, 0, 7, 5⟩) [1, 2] false [⟨0, false⟩]).1 _ _ rfl rfl,
   (claim_C1 ⟨0, 0, 0, 7, 5⟩ (Sum.inr ⟨0, 0, 0, 7, 5⟩) [1, 2] false [⟨0, false⟩]).2 _ _ rfl rfl⟩

theorem derivePubOnly_hardened (kp : XPubKey) (path : List PathStep)
    (h : ∃ s ∈ path, s.hardened = true) :
    derivePubOnly kp path = Except.error error_t.unable_to_derive_hardened := by
  induction path generalizing kp with
  | nil => simp at h
  | cons a rest ih =>
    rcases h with ⟨s, hs, hh⟩
    by_cases ha : a.hardened = true
    · simp [derivePubOnly, ha]
    · rcases List.mem_cons.mp hs with h1 | h1
      · subst h1
        exact absurd hh ha
      · simp only [derivePubOnly, if_neg ha]
        exact ih _ ⟨s, h1, hh⟩

/-- Claim C2: deriving a path containing at least one hardened step from a
public-only extended key fails with exactly the distinct
`unable_to_derive_hardened` error (numeric value 6, distinct from the
path-parse error, value 7) and is reported as a failure, never a panic —
the function is total and returns a result value. -/
theorem claim_C2 (kp : XPubKey) (masterBuf : List Nat) (wipe : Bool)
    (path : List PathStep) (h : ∃ s ∈ path, s.hardened = true) :
    (bip32_derive_xpub (Sum.inr kp) masterBuf wipe path).1.code
      = error_t.unable_to_derive_hardened ∧
    is_success (bip32_derive_xpub (Sum.inr kp) masterBuf wipe path).1 = false ∧
    error_t.code (bip32_derive_xpub (Sum.inr kp) masterBuf wipe path).1.code = 6 ∧
    error_t.code error_t.invalid_derivation_path = 7 := by
  have hd := derivePubOnly_hardened kp path h
  simp [bip32_derive_xpub, derivePub, hd, is_success, error_t.code]

/-- Claim C2 witness: a concrete public-only key and the hardened path
consisting of one hardened step. -/
theorem claim_C2_witness :
    (bip32_derive_xpub (Sum.inr ⟨0, 0, 0, 0, 0⟩) [] false [⟨0, true⟩]).1.code
      = error_t.unable_to_derive_hardened ∧
    is_success (bip32_derive_xpub (Sum.inr ⟨0, 0, 0, 0, 0⟩) [] false [⟨0, true⟩]).1 = false ∧
    error_t.code (bip32_derive_xpub (Sum.inr ⟨0, 0, 0, 0, 0⟩) [] false [⟨0, true⟩]).1.code = 6 ∧
    error_t.code error_t.invalid_derivation_path = 7 :=
  claim_C2 ⟨0, 0, 0, 0, 0⟩ [] false [⟨0, true⟩] ⟨⟨0, true⟩, by simp, rfl⟩
theorem natToBits_length (len : Nat) : ∀ n : Nat, (natToBits n len).length = len := by
  induction len with
  | zero => intro n; rfl
  | succ k ih => intro n; simp [natToBits, ih]

theorem bitsToNat_lt (bs : List Bool) : bitsToNat bs < 2 ^ bs.length := by
  induction bs with
  | nil => simp [bitsToNat]
  | cons b t ih =>
    simp only [bitsToNat, List.length_cons, pow_succ]
    cases b <;>
      simp only [Bool.toNat_false, Bool.toNat_true, one_mul, zero_mul, zero_add] <;>
      omega

theorem natToBits_bitsToNat (bs : List Bool) :
    natToBits (bitsToNat bs) bs.length = bs := by
  induction bs with
  | nil => rfl
  | cons b t ih =>
    have hlt := bitsToNat_lt t
    have hmod : (b.toNat * 2 ^ t.length + bitsToNat t) % 2 ^ t.length = bitsToNat t := by
      rw [Nat.mul_comm, Nat.mul_add_mod, Nat.mod_eq_of_lt hlt]
    have hdiv : (b.toNat * 2 ^ t.length + bitsToNat t) / 2 ^ t.length = b.toNat := by
      rw [Nat.add_comm, Nat.mul_comm,
        Nat.add_mul_div_left _ _ (Nat.two_pow_pos t.length),
        Nat.div_eq_of_lt hlt, Nat.zero_add]
    have hhead : (bitsToNat (b :: t)).testBit t.length = b := by
      simp only [bitsToNat]
      rw [Nat.testBit_to_div_mod, hdiv]
      cases b <;> simp
    have htail : natToBits (bitsToNat (b :: t) % 2 ^ t.length) t.length = t := by
      simp only [bitsToNat]
      rw [hmod]
      exact ih
    simp only [List.length_cons, natToBits]
    rw [hhead, htail]

theorem bitsToNat_natToBits : ∀ len n : Nat, n < 2 ^ len →
    bitsToNat (natToBits n len) = n := by
  intro len
  induction len with
  | zero =>
    intro n h
    simp only [natToBits, bitsToNat]
    omega
  | succ k ih =>
    intro n h
    simp only [natToBits, bitsToNat, natToBits_length]
    have hmlt : n % 2 ^ k < 2 ^ k := Nat.mod_lt _ (Nat.two_pow_pos k)
    rw [ih _ hmlt, Nat.testBit_to_div_mod]
    have hdlt : n / 2 ^ k < 2 := by
      apply Nat.div_lt_of_lt_mul
      rw [pow_succ] at h
      omega
    have h2 : n / 2 ^ k = 0 ∨ n / 2 ^ k = 1 := by
      revert hdlt
      generalize n / 2 ^ k = q
      intro hq
      omega
    rcases h2 with h2 | h2
    · have hn : n % 2 ^ k = n :=
        Nat.mod_eq_of_lt ((Nat.div_eq_zero_iff (Nat.two_pow_pos k)).mp h2)
      rw [h2]
      norm_num
      exact hn
    · have hdm := Nat.div_add_mod n (2 ^ k)
      rw [h2, Nat.mul_one] at hdm
      rw [h2]
      norm_num
      exact hdm

theorem bytesToBits_length (l : List Nat) : (bytesToBits l).length = 8 * l.length := by
  induction l with
  | nil => rfl
  | cons b t ih =>
    simp only [bytesToBits, List.length_append, natToBits_length, List.length_cons, ih]
    omega

theorem wordsToBits_length (l : List Nat) : (wordsToBits l).length = 11 * l.length := by
  induction l with
  | nil => rfl
  | cons b t ih =>
    simp only [wordsToBits, List.length_append, natToBits_length, List.length_cons, ih]
    omega

theorem chunkBits_nil (k : Nat) : chunkBits k [] = [] := by
  unfold chunkBits
  simp

theorem chunkBits_cons (k : Nat) (bs : List Bool) (h : bs ≠ []) :
    chunkBits k bs = bitsToNat (bs.take (k + 1)) :: chunkBits k (bs.drop (k + 1)) := by
  conv_lhs => unfold chunkBits
  rw [if_neg (by simp [h])]

theorem wordsToBits_chunkBits (m : Nat) : ∀ bs : List Bool, bs.length = 11 * m →
    wordsToBits (chunkBits 10 bs) = bs := by
  induction m with
  | zero =>
    intro bs h
    have hnil : bs = [] := List.eq_nil_of_length_eq_zero (by omega)
    subst hnil
    simp [chunkBits_nil, wordsToBits]
  | succ p ih =>
    intro bs h
    have hne : bs ≠ [] := by
      have : 0 < bs.length := by omega
      exact List.length_pos.mp this
    rw [chunkBits_cons 10 bs hne]
    simp only [wordsToBits]
    have htl : (bs.take 11).length = 11 := by
      rw [List.length_take]
      omega
    have h1 : natToBits (bitsToNat (bs.take (10 + 1))) 11 = bs.take 11 := by
      have h2 := natToBits_bitsToNat (bs.take 11)
      rw [htl] at h2
      exact h2
    rw [h1, ih (bs.drop (10 + 1)) (by rw [List.length_drop]; omega)]
    exact List.take_append_drop 11 bs

theorem chunkBits_length_words (m : Nat) (bs : List Bool) (h : bs.length = 11 * m) :
    (chunkBits 10 bs).length = m := by
  have hw := wordsToBits_chunkBits m bs h
  have hl := wordsToBits_length (chunkBits 10 bs)
  rw [hw, h] at hl
  omega

theorem chunkBits_bytesToBits (l : List Nat) (hb : ∀ b ∈ l, b < 256) :
    chunkBits 7 (bytesToBits l) = l := by
  induction l with
  | nil => simp [bytesToBits, chunkBits_nil]
  | cons b t ih =>
    have hlen : (natToBits b 8).length = 8 := natToBits_length 8 b
    have hbs : bytesToBits (b :: t) = natToBits b 8 ++ bytesToBits t := rfl
    have hne : bytesToBits (b :: t) ≠ [] := by
      rw [hbs]
      intro he
      have h8 := congrArg List.length he
      rw [List.length_append, hlen] at h8
      simp at h8
    rw [chunkBits_cons 7 _ hne, hbs]
    have htake : (natToBits b 8 ++ bytesToBits t).take (7 + 1) = natToBits b 8 :=
      List.take_left' hlen
    have hdrop : (natToBits b 8 ++ bytesToBits t).drop (7 + 1) = bytesToBits t :=
      List.drop_left' hlen
    rw [htake, hdrop]
    rw [bitsToNat_natToBits 8 b (hb b (by simp))]
    rw [ih fun x hx => hb x (by simp [hx])]

theorem mnemonic_roundtrip_aux (e : List Nat) (cs : List Bool) (B w : Nat)
    (hb : ∀ b ∈ e, b < 256) (hlen : e.length = B) (hcs : cs.length = B / 4)
    (hw : 8 * B + B / 4 = 11 * w) (htake : 32 * (11 * w / 33) = 8 * B) :
    mnemonicEntropy (chunkBits 10 (bytesToBits e ++ cs)) = e := by
  have h5 : (bytesToBits e).length = 8 * B := by
    rw [bytesToBits_length, hlen]
  have hbits : (bytesToBits e ++ cs).length = 11 * w := by
    rw [List.length_append, h5, hcs]
    exact hw
  have hfl := wordsToBits_chunkBits w (bytesToBits e ++ cs) hbits
  have hcl := chunkBits_length_words w (bytesToBits e ++ cs) hbits
  unfold mnemonicEntropy
  rw [hcl, hfl, htake, List.take_left' h5]
  exact chunkBits_bytesToBits e hb

/-- Claim C5: `bip39_mnemonic_create` fails with `invalid_mnemonic` for
every entropy buffer whose length is outside {16, 20, 24, 28, 32} bytes,
and for entropy of the exact length the requested variant demands, the
entropy recovered from the produced mnemonic is exactly the input. -/
theorem claim_C5 :
    (∀ (entropy : List Nat) (t : bip39_mnemonic_type),
      entropy.length ∉ ([16, 20, 24, 28, 32] : List Nat) →
      bip39_mnemonic_create entropy t = Except.error error_t.invalid_mnemonic) ∧
    (∀ (entropy : List Nat) (t : bip39_mnemonic_type),
      (∀ b ∈ entropy, b < 256) →
      entropy.length = mnemonicEntropyBytes t →
      ∃ m, bip39_mnemonic_create entropy t = Except.ok m ∧
        mnemonicEntropy m = entropy) := by
  constructor
  · intro e t h
    unfold bip39_mnemonic_create
    rw [if_neg]
    intro heq
    apply h
    rw [heq]
    cases t <;> simp [mnemonicEntropyBytes]
  · intro e t hb hlen
    have hsha : ((shaChecksumBits e).take (mnemonicChecksumBits t)).length
        = mnemonicChecksumBits t := by
      rw [List.length_take]
      unfold shaChecksumBits
      rw [natToBits_length]
      cases t <;> simp [mnemonicChecksumBits]
    refine ⟨chunkBits 10
      (bytesToBits e ++ (shaChecksumBits e).take (mnemonicChecksumBits t)), ?_, ?_⟩
    · unfold bip39_mnemonic_create
      rw [if_pos hlen]
    · cases t
      case words_12 =>
        exact mnemonic_roundtrip_aux e _ 16 12 hb hlen hsha (by decide) (by decide)
      case words_15 =>
        exact mnemonic_roundtrip_aux e _ 20 15 hb hlen hsha (by decide) (by decide)
      case words_18 =>
        exact mnemonic_roundtrip_aux e _ 24 18 hb hlen hsha (by decide) (by decide)
      case words_21 =>
        exact mnemonic_roundtrip_aux e _ 28 21 hb hlen hsha (by decide) (by decide)
      case words_24 =>
        exact mnemonic_roundtrip_aux e _ 32 24 hb hlen hsha (by decide) (by decide)

/-- Claim C5 witness: a 3-byte entropy buffer is rejected with
`invalid_mnemonic`, and a concrete 16-byte entropy round-trips through the
12-word mnemonic. -/
theorem claim_C5_witness :
    bip39_mnemonic_create [1, 2, 3] bip39_mnemonic_type.words_12
      = Except.error error_t.invalid_mnemonic ∧
    ∃ m, bip39_mnemonic_create (List.replicate 16 7) bip39_mnemonic_type.words_12
        = Except.ok m ∧
      mnemonicEntropy m = List.replicate 16 7 :=
  ⟨claim_C5.1 [1, 2, 3] bip39_mnemonic_type.words_12 (by decide),
   claim_C5.2 (List.replicate 16 7) bip39_mnemonic_type.words_12 (by decide) (by decide)⟩

theorem bech32_decode_error_ne (s : List Nat) (e : Nat)
    (h : bech32_decode s = Except.error e) : e ≠ BECH32_OK := by
  unfold bech32_decode at h
  split at h
  · injection h with h
    subst h
    decide
  · rcases hr : rsplitSep (s.map lowerByte) with _ | ⟨hrp, dataPart⟩ <;> rw [hr] at h
    · simp only [] at h
      injection h with h
      subst h
      decide
    · simp only [] at h
      split at h
      · injection h with h
        subst h
        decide
      · split at h
        · injection h with h
          subst h
          decide
        · rcases hm : mapCharsetRev dataPart with _ | vals <;> rw [hm] at h
          · simp only [] at h
            injection h with h
            subst h
            decide
          · simp only [] at h
            split at h
            · exact absurd h (by simp)
            · split at h
              · exact absurd h (by simp)
              · injection h with h
                subst h
                decide

/-- Claim C3: `lnpbp_bech32_info` succeeds only when exactly one of the
two checksum constants validates on the (lower-cased, canonically split)
input, the `bech32m` flag reporting which one; every mixed-case string is
rejected with a non-OK status. -/
theorem claim_C3 (s : List Nat) :
    ((lnpbp_bech32_info s).status = BECH32_OK →
      ∃ hrp dataPart vals,
        rsplitSep (s.map lowerByte) = some (hrp, dataPart) ∧
        mapCharsetRev dataPart = some vals ∧
        ((polymod (hrpExpand hrp ++ vals) = variantConst Bech32Variant.legacy ∧
          polymod (hrpExpand hrp ++ vals) ≠ variantConst Bech32Variant.m ∧
          (lnpbp_bech32_info s).bech32m = false) ∨
         (polymod (hrpExpand hrp ++ vals) = variantConst Bech32Variant.m ∧
          polymod (hrpExpand hrp ++ vals) ≠ variantConst Bech32Variant.legacy ∧
          (lnpbp_bech32_info s).bech32m = true))) ∧
    (mixedCase s = true → (lnpbp_bech32_info s).status ≠ BECH32_OK) := by
  constructor
  · intro h
    rcases hd : bech32_decode s with e | d
    · exfalso
      apply bech32_decode_error_ne s e hd
      unfold lnpbp_bech32_info at h
      rw [hd] at h
      exact h
    · have hinfo : lnpbp_bech32_info s
          = ⟨BECH32_OK, bech32CategoryTag (bech32Classify d.hrp), d.isM, d.data⟩ := by
        unfold lnpbp_bech32_info
        rw [hd]
      unfold bech32_decode at hd
      split at hd
      · simp at hd
      · rcases hr : rsplitSep (s.map lowerByte) with _ | ⟨hrp, dataPart⟩ <;> rw [hr] at hd
        · simp at hd
        · simp only [] at hd
          split at hd
          · simp at hd
          · split at hd
            · simp at hd
            · rcases hm : mapCharsetRev dataPart with _ | vals <;> rw [hm] at hd
              · simp at hd
              · simp only [] at hd
                split at hd
                · rename_i hpm
                  refine ⟨hrp, dataPart, vals, rfl, hm, Or.inl ⟨hpm, ?_, ?_⟩⟩
                  · rw [hpm]
                    decide
                  · rw [hinfo]
                    show d.isM = false
                    injection hd with hd
                    rw [← hd]
                · split at hd
                  · rename_i hpm1 hpm2
                    refine ⟨hrp, dataPart, vals, rfl, hm, Or.inr ⟨hpm2, ?_, ?_⟩⟩
                    · rw [hpm2]
                      decide
                    · rw [hinfo]
                      show d.isM = true
                      injection hd with hd
                      rw [← hd]
                  · simp at hd
  · intro hmix
    unfold lnpbp_bech32_info bech32_decode
    rw [if_pos hmix]
    decide

/-- Claim C3 witness: a concrete well-formed bech32 string decodes with
the legacy checksum validating (the bech32m one failing), and the concrete
mixed-case string "Aa" is rejected. -/
theorem claim_C3_witness :
    (∃ hrp dataPart vals,
      rsplitSep ((bech32_encode [98, 99] [0, 1, 2, 3, 4, 5] Bech32Variant.legacy).map lowerByte)
        = some (hrp, dataPart) ∧
      mapCharsetRev dataPart = some vals ∧
      ((polymod (hrpExpand hrp ++ vals) = variantConst Bech32Variant.legacy ∧
        polymod (hrpExpand hrp ++ vals) ≠ variantConst Bech32Variant.m ∧
        (lnpbp_bech32_info
          (bech32_encode [98, 99] [0, 1, 2, 3, 4, 5] Bech32Variant.legacy)).bech32m = false) ∨
       (polymod (hrpExpand hrp ++ vals) = variantConst Bech32Variant.m ∧
        polymod (hrpExpand hrp ++ vals) ≠ variantConst Bech32Variant.legacy ∧
        (lnpbp_bech32_info
          (bech32_encode [98, 99] [0, 1, 2, 3, 4, 5] Bech32Variant.legacy)).bech32m = true))) ∧
    (lnpbp_bech32_info [65, 97]).status ≠ BECH32_OK :=
  ⟨(claim_C3 (bech32_encode [98, 99] [0, 1, 2, 3, 4, 5] Bech32Variant.legacy)).1 (by decide),
   (claim_C3 [65, 97]).2 (by decide)⟩

theorem shiftLeft_xor_distrib (a b k : Nat) :
    (a ^^^ b) <<< k = (a <<< k) ^^^ (b <<< k) := by
  apply Nat.eq_of_testBit_eq
  intro i
  simp only [Nat.testBit_shiftLeft, Nat.testBit_xor]
  by_cases h : k ≤ i <;> simp [h]

theorem xor_high_shiftRight (x d k : Nat) (hd : d < 2 ^ k) :
    (x ^^^ d) >>> k = x >>> k := by
  apply Nat.eq_of_testBit_eq
  intro i
  simp only [Nat.testBit_shiftRight, Nat.testBit_xor]
  rw [Nat.testBit_lt_two_pow
    (lt_of_lt_of_le hd (Nat.pow_le_pow_right (by norm_num) (by omega)))]
  simp

theorem and_mask_mod (x k : Nat) : x &&& (2 ^ k - 1) = x % 2 ^ k := by
  apply Nat.eq_of_testBit_eq
  intro i
  rw [Nat.testBit_and, Nat.testBit_two_pow_sub_one, Nat.testBit_mod_two_pow]
  by_cases h : i < k <;> simp [h]

theorem and_mask_of_lt (d k : Nat) (hd : d < 2 ^ k) : d &&& (2 ^ k - 1) = d := by
  rw [and_mask_mod, Nat.mod_eq_of_lt hd]

theorem polymodStep_xor (x d v : Nat) (hd : d < 2 ^ 25) :
    polymodStep (x ^^^ d) v = polymodStep x 0 ^^^ ((d <<< 5) ^^^ v) := by
  unfold polymodStep
  rw [xor_high_shiftRight x d 25 hd]
  have hm : (x ^^^ d) &&& 0x1ffffff = (x &&& 0x1ffffff) ^^^ d := by
    rw [Nat.and_xor_distrib_right]
    congr 1
    have h25 : (0x1ffffff : Nat) = 2 ^ 25 - 1 := by norm_num
    rw [h25, and_mask_of_lt d 25 hd]
  rw [hm, shiftLeft_xor_distrib]
  have hlc : ∀ a b c : Nat, a ^^^ (b ^^^ c) = b ^^^ (a ^^^ c) := fun a b c => by
    rw [← Nat.xor_assoc, Nat.xor_comm a b, Nat.xor_assoc]
  simp [Nat.xor_assoc, Nat.xor_comm, hlc, Nat.xor_zero]

theorem shiftLeft5_lt (c k : Nat) (h : c < 2 ^ k) : c <<< 5 < 2 ^ (k + 5) := by
  rw [Nat.shiftLeft_eq]
  calc c * 2 ^ 5 < 2 ^ k * 2 ^ 5 := by
        exact mul_lt_mul_of_pos_right h (by norm_num)
    _ = 2 ^ (k + 5) := (pow_add 2 k 5).symm

theorem foldl_polymodStep_six (x c0 c1 c2 c3 c4 c5 : Nat)
    (h0 : c0 < 32) (h1 : c1 < 32) (h2 : c2 < 32) (h3 : c3 < 32)
    (h4 : c4 < 32) :
    List.foldl polymodStep x [c0, c1, c2, c3, c4, c5]
      = List.foldl polymodStep x [0, 0, 0, 0, 0, 0] ^^^
        (((((c0 <<< 5 ^^^ c1) <<< 5 ^^^ c2) <<< 5 ^^^ c3) <<< 5 ^^^ c4) <<< 5 ^^^ c5) := by
  have e0 : c0 < 2 ^ 5 := lt_of_lt_of_le h0 (by norm_num)
  have e1 : c1 < 2 ^ 10 := lt_of_lt_of_le h1 (by norm_num)
  have e2 : c2 < 2 ^ 15 := lt_of_lt_of_le h2 (by norm_num)
  have e3 : c3 < 2 ^ 20 := lt_of_lt_of_le h3 (by norm_num)
  have e4 : c4 < 2 ^ 25 := lt_of_lt_of_le h4 (by norm_num)
  have b1 : c0 <<< 5 ^^^ c1 < 2 ^ 10 :=
    Nat.xor_lt_two_pow (shiftLeft5_lt c0 5 e0) e1
  have b2 : (c0 <<< 5 ^^^ c1) <<< 5 ^^^ c2 < 2 ^ 15 :=
    Nat.xor_lt_two_pow (shiftLeft5_lt _ 10 b1) e2
  have b3 : ((c0 <<< 5 ^^^ c1) <<< 5 ^^^ c2) <<< 5 ^^^ c3 < 2 ^ 20 :=
    Nat.xor_lt_two_pow (shiftLeft5_lt _ 15 b2) e3
  have b4 : (((c0 <<< 5 ^^^ c1) <<< 5 ^^^ c2) <<< 5 ^^^ c3) <<< 5 ^^^ c4 < 2 ^ 25 :=
    Nat.xor_lt_two_pow (shiftLeft5_lt _ 20 b3) e4
  simp only [List.foldl]
  have s1 : polymodStep x c0 = polymodStep x 0 ^^^ c0 := by
    have h := polymodStep_xor x 0 c0 (by norm_num)
    simpa using h
  rw [s1]
  rw [polymodStep_xor (polymodStep x 0) c0 c1 (lt_of_lt_of_le e0 (by norm_num))]
  rw [polymodStep_xor (polymodStep (polymodStep x 0) 0) (c0 <<< 5 ^^^ c1) c2
    (lt_of_lt_of_le b1 (by norm_num))]
  rw [polymodStep_xor (polymodStep (polymodStep (polymodStep x 0) 0) 0)
    ((c0 <<< 5 ^^^ c1) <<< 5 ^^^ c2) c3 (lt_of_lt_of_le b2 (by norm_num))]
  rw [polymodStep_xor (polymodStep (polymodStep (polymodStep (polymodStep x 0) 0) 0) 0)
    (((c0 <<< 5 ^^^ c1) <<< 5 ^^^ c2) <<< 5 ^^^ c3) c4 (lt_of_lt_of_le b3 (by norm_num))]
  rw [polymodStep_xor
    (polymodStep (polymodStep (polymodStep (polymodStep (polymodStep x 0) 0) 0) 0) 0)
    ((((c0 <<< 5 ^^^ c1) <<< 5 ^^^ c2) <<< 5 ^^^ c3) <<< 5 ^^^ c4) c5 b4]

theorem and31_lt (y : Nat) : y &&& 31 < 32 :=
  Nat.lt_succ_of_le Nat.and_le_right

set_option maxHeartbeats 1000000 in
theorem checksum_recompose (pm : Nat) (h : pm < 2 ^ 30) :
    ((((((pm >>> 25 &&& 31) <<< 5 ^^^ pm >>> 20 &&& 31) <<< 5 ^^^ pm >>> 15 &&& 31) <<< 5
      ^^^ pm >>> 10 &&& 31) <<< 5 ^^^ pm >>> 5 &&& 31) <<< 5 ^^^ pm &&& 31) = pm := by
  have e32 : ∀ y : Nat, y &&& 31 < 2 ^ 5 :=
    fun y => lt_of_lt_of_le (and31_lt y) (by norm_num)
  have b1 : (pm >>> 25 &&& 31) <<< 5 ^^^ pm >>> 20 &&& 31 < 2 ^ 10 := by
    apply Nat.xor_lt_two_pow
    · simpa using shiftLeft5_lt (pm >>> 25 &&& 31) 5 (e32 _)
    · exact lt_of_lt_of_le (and31_lt _) (by norm_num)
  have b2 : ((pm >>> 25 &&& 31) <<< 5 ^^^ pm >>> 20 &&& 31) <<< 5 ^^^ pm >>> 15 &&& 31
      < 2 ^ 15 := by
    apply Nat.xor_lt_two_pow
    · simpa using shiftLeft5_lt _ 10 b1
    · exact lt_of_lt_of_le (and31_lt _) (by norm_num)
  have b3 : (((pm >>> 25 &&& 31) <<< 5 ^^^ pm >>> 20 &&& 31) <<< 5 ^^^ pm >>> 15 &&& 31) <<< 5
      ^^^ pm >>> 10 &&& 31 < 2 ^ 20 := by
    apply Nat.xor_lt_two_pow
    · simpa using shiftLeft5_lt _ 15 b2
    · exact lt_of_lt_of_le (and31_lt _) (by norm_num)
  have b4 : ((((pm >>> 25 &&& 31) <<< 5 ^^^ pm >>> 20 &&& 31) <<< 5 ^^^ pm >>> 15 &&& 31) <<< 5
      ^^^ pm >>> 10 &&& 31) <<< 5 ^^^ pm >>> 5 &&& 31 < 2 ^ 25 := by
    apply Nat.xor_lt_two_pow
    · simpa using shiftLeft5_lt _ 20 b3
    · exact lt_of_lt_of_le (and31_lt _) (by norm_num)
  have b5 : (((((pm >>> 25 &&& 31) <<< 5 ^^^ pm >>> 20 &&& 31) <<< 5 ^^^ pm >>> 15 &&& 31) <<< 5
      ^^^ pm >>> 10 &&& 31) <<< 5 ^^^ pm >>> 5 &&& 31) <<< 5 ^^^ pm &&& 31 < 2 ^ 30 := by
    apply Nat.xor_lt_two_pow
    · simpa using shiftLeft5_lt _ 25 b4
    · exact lt_of_lt_of_le (and31_lt _) (by norm_num)
  apply Nat.eq_of_testBit_eq
  intro i
  by_cases hi : i < 30
  · have h31 : (31 : Nat) = 2 ^ 5 - 1 := by norm_num
    simp only [h31, and_mask_mod, Nat.testBit_xor, Nat.testBit_shiftLeft,
      Nat.testBit_mod_two_pow, Nat.testBit_shiftRight]
    interval_cases i <;> simp
  · rw [Nat.testBit_lt_two_pow
      (lt_of_lt_of_le b5 (Nat.pow_le_pow_right (by norm_num) (by omega)))]
    rw [Nat.testBit_lt_two_pow
      (lt_of_lt_of_le h (Nat.pow_le_pow_right (by norm_num) (by omega)))]

theorem bech32Gen_lt (b : Nat) : bech32Gen b < 2 ^ 30 := by
  unfold bech32Gen
  split_ifs <;> decide

theorem polymodStep_lt (chk v : Nat) (hv : v < 2 ^ 30) : polymodStep chk v < 2 ^ 30 := by
  unfold polymodStep
  apply Nat.xor_lt_two_pow _ (bech32Gen_lt _)
  apply Nat.xor_lt_two_pow _ hv
  have h1 : chk &&& 0x1ffffff < 2 ^ 25 :=
    lt_of_le_of_lt Nat.and_le_right (by norm_num)
  simpa using shiftLeft5_lt (chk &&& 0x1ffffff) 25 h1

theorem polymod_foldl_lt (vs : List Nat) : ∀ x : Nat, x < 2 ^ 30 →
    (∀ v ∈ vs, v < 2 ^ 30) → List.foldl polymodStep x vs < 2 ^ 30 := by
  induction vs with
  | nil =>
    intro x hx _
    simpa using hx
  | cons a t ih =>
    intro x hx hv
    simp only [List.foldl]
    exact ih _ (polymodStep_lt x a (hv a (by simp))) (fun w hm => hv w (by simp [hm]))

theorem createChecksum_valid (hrp data : List Nat) (v : Bech32Variant)
    (hvals : ∀ x ∈ hrpExpand hrp ++ data, x < 2 ^ 30) :
    polymod (hrpExpand hrp ++ (data ++ bech32CreateChecksum hrp data v))
      = variantConst v := by
  have hzlt : ∀ x ∈ hrpExpand hrp ++ data ++ [0, 0, 0, 0, 0, 0], x < 2 ^ 30 := by
    intro x hx
    rcases List.mem_append.mp hx with hx | hx
    · exact hvals x hx
    · fin_cases hx <;> norm_num
  have hplt : polymod (hrpExpand hrp ++ data ++ [0, 0, 0, 0, 0, 0]) < 2 ^ 30 :=
    polymod_foldl_lt _ 1 (by norm_num) hzlt
  have hclt : variantConst v < 2 ^ 30 := by
    cases v <;> norm_num [variantConst]
  have hpmlt : polymod (hrpExpand hrp ++ data ++ [0, 0, 0, 0, 0, 0]) ^^^ variantConst v
      < 2 ^ 30 := Nat.xor_lt_two_pow hplt hclt
  rw [← List.append_assoc]
  simp only [bech32CreateChecksum]
  rw [polymod, List.foldl_append]
  rw [foldl_polymodStep_six _ _ _ _ _ _ _ (and31_lt _) (and31_lt _) (and31_lt _)
    (and31_lt _) (and31_lt _)]
  rw [checksum_recompose _ hpmlt]
  have hz : List.foldl polymodStep
      (List.foldl polymodStep 1 (hrpExpand hrp ++ data)) [0, 0, 0, 0, 0, 0]
      = polymod (hrpExpand hrp ++ data ++ [0, 0, 0, 0, 0, 0]) := by
    simp [polymod, List.foldl_append]
  rw [hz, ← Nat.xor_assoc, Nat.xor_self, Nat.zero_xor]

theorem charsetRev_charsetByte_fin :
    ∀ d : Fin 32, charsetRev (charsetByte d.val) = some d.val := by
  decide

theorem charsetByte_not_upper_fin :
    ∀ d : Fin 32, isUpperByte (charsetByte d.val) = false := by
  decide

theorem charsetByte_ne_sep_fin : ∀ d : Fin 32, (charsetByte d.val == 49) = false := by
  decide

theorem charsetRev_charsetByte (d : Nat) (h : d < 32) :
    charsetRev (charsetByte d) = some d :=
  charsetRev_charsetByte_fin ⟨d, h⟩

theorem charsetByte_not_upper (d : Nat) (h : d < 32) :
    isUpperByte (charsetByte d) = false :=
  charsetByte_not_upper_fin ⟨d, h⟩

theorem charsetByte_ne_sep (d : Nat) (h : d < 32) : charsetByte d ≠ 49 := by
  have hf := charsetByte_ne_sep_fin ⟨d, h⟩
  simpa using hf

theorem rsplitSep_none (l : List Nat) (h : 49 ∉ l) : rsplitSep l = none := by
  induction l with
  | nil => rfl
  | cons b t ih =>
    simp only [rsplitSep, ih (fun hm => h (List.mem_cons_of_mem b hm))]
    rw [if_neg (show ¬b = 49 from fun hb => h (by rw [← hb]; exact List.mem_cons_self b t))]

theorem rsplitSep_append (hrp rest : List Nat) (h : 49 ∉ rest) :
    rsplitSep (hrp ++ 49 :: rest) = some (hrp, rest) := by
  induction hrp with
  | nil =>
    simp only [List.nil_append, rsplitSep, rsplitSep_none rest h]
    simp
  | cons b t ih =>
    simp only [List.cons_append, rsplitSep, List.append_eq, ih]

theorem mapCharsetRev_map (l : List Nat) (h : ∀ d ∈ l, d < 32) :
    mapCharsetRev (l.map charsetByte) = some l := by
  induction l with
  | nil => rfl
  | cons d t ih =>
    simp only [List.map_cons, mapCharsetRev,
      charsetRev_charsetByte d (h d (by simp)),
      ih (fun x hx => h x (by simp [hx]))]

theorem map_lowerByte_id (l : List Nat) (h : ∀ b ∈ l, isUpperByte b = false) :
    l.map lowerByte = l := by
  induction l with
  | nil => rfl
  | cons b t ih =>
    simp only [List.map_cons, lowerByte]
    rw [if_neg (by simp [h b (by simp)]), ih (fun x hx => h x (by simp [hx]))]

/-- Claim C4: decoding an encoded string recovers exactly the original
(human-readable part, payload, checksum variant) triple, and
`lnpbp_bech32_info` on any correctly encoded string reports success with
the matching variant flag. -/
theorem claim_C4 (hrp data : List Nat) (v : Bech32Variant)
    (hne : hrp ≠ [])
    (hhrp : ∀ b ∈ hrp, 33 ≤ b ∧ b ≤ 126 ∧ isUpperByte b = false)
    (hdata : ∀ d ∈ data, d < 32) :
    bech32_decode (bech32_encode hrp data v)
      = Except.ok ⟨hrp, data, decide (v = Bech32Variant.m)⟩ ∧
    (lnpbp_bech32_info (bech32_encode hrp data v)).status = BECH32_OK ∧
    (lnpbp_bech32_info (bech32_encode hrp data v)).bech32m
      = decide (v = Bech32Variant.m) := by
  set cs := bech32CreateChecksum hrp data v with hcs
  have hcslen : cs.length = 6 := by
    rw [hcs]
    simp [bech32CreateChecksum]
  have hcsmem : ∀ d ∈ cs, d < 32 := by
    rw [hcs]
    intro d hd
    simp only [bech32CreateChecksum, List.mem_cons] at hd
    rcases hd with rfl | rfl | rfl | rfl | rfl | rfl | hfalse
    · exact and31_lt _
    · exact and31_lt _
    · exact and31_lt _
    · exact and31_lt _
    · exact and31_lt _
    · exact and31_lt _
    · simp at hfalse
  have hds : ∀ d ∈ data ++ cs, d < 32 := by
    intro d hd
    rcases List.mem_append.mp hd with hd | hd
    · exact hdata d hd
    · exact hcsmem d hd
  have henc : bech32_encode hrp data v = hrp ++ 49 :: (data ++ cs).map charsetByte := by
    rw [hcs]
    rfl
  have hup : ∀ b ∈ bech32_encode hrp data v, isUpperByte b = false := by
    rw [henc]
    intro b hb
    rcases List.mem_append.mp hb with hb | hb
    · exact (hhrp b hb).2.2
    · rcases List.mem_cons.mp hb with rfl | hb
      · rfl
      · rcases List.mem_map.mp hb with ⟨d, hd, rfl⟩
        exact charsetByte_not_upper d (hds d hd)
  have hany : (bech32_encode hrp data v).any isUpperByte = false := by
    rw [List.any_eq_false]
    intro b hb
    simp [hup b hb]
  have hmix : mixedCase (bech32_encode hrp data v) = false := by
    unfold mixedCase
    rw [hany, Bool.false_and]
  have hlow : (bech32_encode hrp data v).map lowerByte = bech32_encode hrp data v :=
    map_lowerByte_id _ hup
  have hsep : (49 : Nat) ∉ (data ++ cs).map charsetByte := by
    intro hm
    rcases List.mem_map.mp hm with ⟨d, hd, he⟩
    exact charsetByte_ne_sep d (hds d hd) he
  have hsplit : rsplitSep (bech32_encode hrp data v)
      = some (hrp, (data ++ cs).map charsetByte) := by
    rw [henc]
    exact rsplitSep_append hrp _ hsep
  have hvals : mapCharsetRev ((data ++ cs).map charsetByte) = some (data ++ cs) :=
    mapCharsetRev_map _ hds
  have hexp30 : ∀ x ∈ hrpExpand hrp ++ data, x < 2 ^ 30 := by
    intro x hx
    rcases List.mem_append.mp hx with hx | hx
    · unfold hrpExpand at hx
      rcases List.mem_append.mp hx with hx | hx
      · rcases List.mem_append.mp hx with hx | hx
        · rcases List.mem_map.mp hx with ⟨b, hb, rfl⟩
          have h126 := (hhrp b hb).2.1
          have hs : b >>> 5 ≤ b := by
            rw [Nat.shiftRight_eq_div_pow]
            exact Nat.div_le_self b (2 ^ 5)
          exact lt_of_le_of_lt (le_trans hs h126) (by norm_num)
        · simp only [List.mem_singleton] at hx
          subst hx
          norm_num
      · rcases List.mem_map.mp hx with ⟨b, hb, rfl⟩
        exact lt_trans (and31_lt b) (by norm_num)
    · exact lt_trans (hdata x hx) (by norm_num)
  have hpoly : polymod (hrpExpand hrp ++ (data ++ cs)) = variantConst v := by
    rw [hcs]
    exact createChecksum_valid hrp data v hexp30
  have hlen6 : ¬(((data ++ cs).map charsetByte).length < 6) := by
    simp only [List.length_map, List.length_append, hcslen]
    omega
  have htake : (data ++ cs).take ((data ++ cs).length - 6) = data := by
    have hl : (data ++ cs).length - 6 = data.length := by
      simp [List.length_append, hcslen]
    rw [hl]
    exact List.take_left data cs
  have hdec : bech32_decode (bech32_encode hrp data v)
      = Except.ok ⟨hrp, data, decide (v = Bech32Variant.m)⟩ := by
    unfold bech32_decode
    rw [if_neg (by simp [hmix])]
    simp only [hlow, hsplit]
    rw [if_neg (by simp [hne])]
    rw [if_neg hlen6]
    simp only [hvals]
    cases v
    case legacy =>
      have hp1 : polymod (hrpExpand hrp ++ (data ++ cs)) = 1 := by
        simpa [variantConst] using hpoly
      rw [if_pos hp1, htake]
      rfl
    case m =>
      have hpM : polymod (hrpExpand hrp ++ (data ++ cs)) = 0x2bc830a3 := by
        simpa [variantConst] using hpoly
      rw [if_neg (by rw [hpM]; decide), if_pos hpM, htake]
      rfl
  refine ⟨hdec, ?_, ?_⟩ <;>
    · unfold lnpbp_bech32_info
      rw [hdec]

/-- Claim C4 witness: a concrete bech32m encoding of payload [3,1,4,1,5]
under the "bc" prefix round-trips exactly. -/
theorem claim_C4_witness :
    bech32_decode (bech32_encode [98, 99] [3, 1, 4, 1, 5] Bech32Variant.m)
      = Except.ok ⟨[98, 99], [3, 1, 4, 1, 5], decide (Bech32Variant.m = Bech32Variant.m)⟩ ∧
    (lnpbp_bech32_info
      (bech32_encode [98, 99] [3, 1, 4, 1, 5] Bech32Variant.m)).status = BECH32_OK ∧
    (lnpbp_bech32_info (bech32_encode [98, 99] [3, 1, 4, 1, 5] Bech32Variant.m)).bech32m
      = decide (Bech32Variant.m = Bech32Variant.m) :=
  claim_C4 [98, 99] [3, 1, 4, 1, 5] Bech32Variant.m (by decide) (by decide) (by decide)
